import Mathlib

/-!
Shallow embedding of the `zharko` path tracer core (src/src/math.rs,
src/src/math/hittables.rs, src/src/math/materials.rs, src/src/camera.rs,
src/src/renderers.rs) over exact real arithmetic, together with theorems
settling the specification claims.  Rust `f64` values are modelled as `ℝ`;
Lean's total division (`x / 0 = 0`) stands in for IEEE division, which is
noted wherever a divisor can vanish.  Randomness (the global RNG the code
pulls from) is modelled by passing each random draw explicitly.
-/

namespace Zharko

/-- Vector of three reals, mirroring `Vec3` in src/src/math.rs. -/
@[ext]
structure Vec3 where
  x : ℝ
  y : ℝ
  z : ℝ

/-- Mirror of `Vec3::zero`. -/
def Vec3.zero : Vec3 := ⟨0, 0, 0⟩

/-- Mirror of `Vec3::dot` (src/src/math.rs lines 38-40). -/
noncomputable def Vec3.dot (v w : Vec3) : ℝ := v.x * w.x + v.y * w.y + v.z * w.z

/-- Mirror of `Vec3::cross` (src/src/math.rs lines 43-49). -/
noncomputable def Vec3.cross (v w : Vec3) : Vec3 :=
  ⟨v.y * w.z - v.z * w.y, v.z * w.x - v.x * w.z, v.x * w.y - v.y * w.x⟩

/-- Mirror of `Vec3::length` (src/src/math.rs lines 52-54). -/
noncomputable def Vec3.length (v : Vec3) : ℝ :=
  Real.sqrt (v.x * v.x + v.y * v.y + v.z * v.z)

/-- Mirror of `Vec3::unit` (src/src/math.rs lines 57-60): componentwise
division by the length.  No guard for zero length, as in the source. -/
noncomputable def Vec3.unit (v : Vec3) : Vec3 :=
  ⟨v.x / v.length, v.y / v.length, v.z / v.length⟩

/-- Mirror of `Vec3::length_squared` (src/src/math.rs lines 62-64). -/
noncomputable def Vec3.length_squared (v : Vec3) : ℝ := v.dot v

noncomputable instance : Add Vec3 := ⟨fun a b => ⟨a.x + b.x, a.y + b.y, a.z + b.z⟩⟩

noncomputable instance : Sub Vec3 := ⟨fun a b => ⟨a.x - b.x, a.y - b.y, a.z - b.z⟩⟩

noncomputable instance : HMul ℝ Vec3 Vec3 := ⟨fun c v => ⟨c * v.x, c * v.y, c * v.z⟩⟩

noncomputable instance : HMul Vec3 ℝ Vec3 := ⟨fun v c => ⟨v.x * c, v.y * c, v.z * c⟩⟩

noncomputable instance : HDiv Vec3 ℝ Vec3 := ⟨fun v c => ⟨v.x / c, v.y / c, v.z / c⟩⟩

noncomputable instance : HMul Vec3 Vec3 Vec3 := ⟨fun a b => ⟨a.x * b.x, a.y * b.y, a.z * b.z⟩⟩

@[simp] lemma Vec3.add_def (a b : Vec3) : a + b = ⟨a.x + b.x, a.y + b.y, a.z + b.z⟩ := rfl

@[simp] lemma Vec3.sub_def (a b : Vec3) : a - b = ⟨a.x - b.x, a.y - b.y, a.z - b.z⟩ := rfl

@[simp] lemma Vec3.smul_def (c : ℝ) (v : Vec3) : c * v = ⟨c * v.x, c * v.y, c * v.z⟩ := rfl

@[simp] lemma Vec3.mulc_def (v : Vec3) (c : ℝ) : v * c = ⟨v.x * c, v.y * c, v.z * c⟩ := rfl

@[simp] lemma Vec3.divc_def (v : Vec3) (c : ℝ) : v / c = ⟨v.x / c, v.y / c, v.z / c⟩ := rfl

@[simp] lemma Vec3.dot_def (v w : Vec3) : v.dot w = v.x * w.x + v.y * w.y + v.z * w.z := rfl

@[simp] lemma Vec3.cross_def (v w : Vec3) :
    v.cross w = ⟨v.y * w.z - v.z * w.y, v.z * w.x - v.x * w.z, v.x * w.y - v.y * w.x⟩ := rfl

lemma Vec3.length_squared_def (v : Vec3) :
    v.length_squared = v.x * v.x + v.y * v.y + v.z * v.z := rfl

lemma Vec3.length_eq_sqrt (v : Vec3) : v.length = Real.sqrt v.length_squared := rfl

/-- Ray with origin and direction, mirroring `Ray` in src/src/math.rs. -/
structure Ray where
  origin : Vec3
  dir : Vec3

/-- Mirror of `Ray::at` (src/src/math.rs lines 224-226). -/
noncomputable def Ray.at (r : Ray) (t : ℝ) : Vec3 := r.origin + t * r.dir

/-- Mirror of `HitRecord` (src/src/math.rs lines 229-236). -/
structure HitRecord where
  point : Vec3
  normal : Vec3
  t : ℝ
  front_face : Bool

/-- Mirror of `HitRecord::set_face_normal` (src/src/math.rs lines 243-250):
`front_face` records the test `r.dir.dot(outward_normal) < 0.0` and the
normal is the outward normal or its negation `-1.0 * outward_normal`
accordingly. -/
noncomputable def HitRecord.set_face_normal (rec : HitRecord) (r : Ray)
    (outward_normal : Vec3) : HitRecord :=
  if r.dir.dot outward_normal < 0 then
    { rec with front_face := true, normal := outward_normal }
  else
    { rec with front_face := false, normal := (-1 : ℝ) * outward_normal }

/-- Mirror of `HitResult` (src/src/math.rs lines 253-256). -/
inductive HitResult where
  | NoHit
  | Hit (rec : HitRecord)

/-- Mirror of `Sphere` (src/src/math/hittables.rs lines 46-49). -/
structure Sphere where
  center : Vec3
  radius : ℝ

/-- Mirror of `Sphere::new` (src/src/math/hittables.rs lines 52-54): the
constructor stores both fields unchecked. -/
def Sphere.new (center : Vec3) (radius : ℝ) : Sphere := ⟨center, radius⟩

/-- The vector `oc` of `Sphere::hit` (src/src/math/hittables.rs line 59). -/
noncomputable def Sphere.oc (s : Sphere) (r : Ray) : Vec3 := s.center - r.origin

/-- The scalar `a` of `Sphere::hit` (line 60), the divisor of both root
computations. -/
noncomputable def Sphere.qa (r : Ray) : ℝ := r.dir.length_squared

/-- The scalar `h` of `Sphere::hit` (line 61). -/
noncomputable def Sphere.qh (s : Sphere) (r : Ray) : ℝ := (s.oc r).dot r.dir

/-- The scalar `c` of `Sphere::hit` (line 62). -/
noncomputable def Sphere.qc (s : Sphere) (r : Ray) : ℝ :=
  (s.oc r).length_squared - s.radius * s.radius

/-- The `discriminant` of `Sphere::hit` (line 63). -/
noncomputable def Sphere.discriminant (s : Sphere) (r : Ray) : ℝ :=
  s.qh r * s.qh r - Sphere.qa r * s.qc r

/-- The smaller candidate root `(h - sqrtd) / a` (line 72). -/
noncomputable def Sphere.root1 (s : Sphere) (r : Ray) : ℝ :=
  (s.qh r - Real.sqrt (s.discriminant r)) / Sphere.qa r

/-- The larger candidate root `(h + sqrtd) / a` (line 74). -/
noncomputable def Sphere.root2 (s : Sphere) (r : Ray) : ℝ :=
  (s.qh r + Real.sqrt (s.discriminant r)) / Sphere.qa r

/-- The hit record `Sphere::hit` builds for an accepted root
(src/src/math/hittables.rs lines 80-88). -/
noncomputable def Sphere.mkRecord (s : Sphere) (r : Ray) (root : ℝ) : HitRecord :=
  let record : HitRecord :=
    { t := root
      point := r.at root
      normal := (r.at root - s.center) / s.radius
      front_face := false }
  let outward_normal := (record.point - s.center) / s.radius
  record.set_face_normal r outward_normal

/-- Mirror of `Sphere::hit` (src/src/math/hittables.rs lines 57-92).  The
mutable `root` variable of the source is rendered as nested conditionals:
the smaller root is tested first against `root <= ray_tmin || root >= ray_tmax`,
then the larger root, and `NoHit` results when both fail. -/
noncomputable def Sphere.hit (s : Sphere) (r : Ray) (ray_tmin ray_tmax : ℝ) : HitResult :=
  if s.discriminant r < 0 then HitResult.NoHit
  else if s.root1 r ≤ ray_tmin ∨ ray_tmax ≤ s.root1 r then
    if s.root2 r ≤ ray_tmin ∨ ray_tmax ≤ s.root2 r then HitResult.NoHit
    else HitResult.Hit (s.mkRecord r (s.root2 r))
  else HitResult.Hit (s.mkRecord r (s.root1 r))

/-- A hittable child as consumed by `HittableList::hit`: the dynamic
dispatch `obj.hit(r, ray_tmin, ray_tmax)` on `Box<dyn Hittable>` is modelled
as a function of the ray and the two bounds. -/
abbrev HittableFn : Type := Ray → ℝ → ℝ → HitResult

/-- Mirror of `HittableList` (src/src/math/hittables.rs lines 3-5). -/
structure HittableList where
  objects : List HittableFn

/-- The loop of `HittableList::hit` (src/src/math/hittables.rs lines 30-40):
each child is queried with the unchanged bounds, and a reported hit replaces
the current result only when `closest_so_far > rec.t`. -/
noncomputable def hitLoop (objects : List HittableFn) (r : Ray)
    (ray_tmin ray_tmax : ℝ) (res : HitResult) (closest_so_far : ℝ) : HitResult :=
  match objects with
  | [] => res
  | obj :: rest =>
    match obj r ray_tmin ray_tmax with
    | HitResult.NoHit => hitLoop rest r ray_tmin ray_tmax res closest_so_far
    | HitResult.Hit rec =>
      if closest_so_far > rec.t then
        hitLoop rest r ray_tmin ray_tmax (HitResult.Hit rec) rec.t
      else
        hitLoop rest r ray_tmin ray_tmax res closest_so_far

/-- Mirror of `HittableList::hit` (src/src/math/hittables.rs lines 25-44):
the loop starts from `NoHit` with `closest_so_far = ray_tmax`. -/
noncomputable def HittableList.hit (l : HittableList) (r : Ray)
    (ray_tmin ray_tmax : ℝ) : HitResult :=
  hitLoop l.objects r ray_tmin ray_tmax HitResult.NoHit ray_tmax

/-- The aggregate scan exactly as the specification words it (spec §4.1):
every child is queried with the same lower bound but a shrinking upper bound
equal to the best `t` found so far, and a returned hit (necessarily inside
the shrunk interval) becomes the new best. -/
noncomputable def hitLoopShrink (objects : List HittableFn) (r : Ray)
    (ray_tmin : ℝ) (res : HitResult) (closest_so_far : ℝ) : HitResult :=
  match objects with
  | [] => res
  | obj :: rest =>
    match obj r ray_tmin closest_so_far with
    | HitResult.NoHit => hitLoopShrink rest r ray_tmin res closest_so_far
    | HitResult.Hit rec => hitLoopShrink rest r ray_tmin (HitResult.Hit rec) rec.t

/-- Top level of the specified shrinking scan (spec §4.1). -/
noncomputable def hitShrink (objects : List HittableFn) (r : Ray)
    (ray_tmin ray_tmax : ℝ) : HitResult :=
  hitLoopShrink objects r ray_tmin HitResult.NoHit ray_tmax

/-- Modelled from the spec: `reflect`, imported by src/src/math/materials.rs
from the math module but absent from the provided math.rs.  Spec §4.2 calls it
the "perfect mirror reflection of the incident direction about the normal",
which is `v - 2 (v·n) n`. -/
noncomputable def reflect (v n : Vec3) : Vec3 := v - (2 * v.dot n) * n

/-- Modelled from the spec: `refract`, imported by src/src/math/materials.rs
from the math module but absent from the provided math.rs.  Spec §4.2 says
"refract via Snell's law"; the Snell construction splits the refracted
direction into the part perpendicular to the normal, `ri * (uv + cosθ * n)`
with `cosθ = min(-uv·n, 1)`, and the parallel part
`-sqrt(|1 - |perp|²|) * n`. -/
noncomputable def refract (uv n : Vec3) (etai_over_etat : ℝ) : Vec3 :=
  let cos_theta := min ((-1 : ℝ) * uv.dot n) 1
  let r_out_perp := etai_over_etat * (uv + cos_theta * n)
  let r_out_parallel := (-Real.sqrt |1 - r_out_perp.length_squared|) * n
  r_out_perp + r_out_parallel

/-- Modelled from the spec: `Vec3::near_zero`, used by the Lambertian
scatter in src/src/math/materials.rs but absent from the provided math.rs.
Spec §4.2: the scatter direction "nearly cancels to zero (within a fixed
small epsilon per axis)"; spec §9 fixes the epsilon as e.g. `1e-8`.  All
claims below are independent of the concrete epsilon. -/
noncomputable def Vec3.near_zero (v : Vec3) : Bool :=
  decide (|v.x| < 1e-8 ∧ |v.y| < 1e-8 ∧ |v.z| < 1e-8)

/-- Mirror of `ScatterResult` (src/src/math/materials.rs lines 5-10). -/
structure ScatterResult where
  attenuation : Vec3
  scattered : Ray

/-- The three material implementations of src/src/math/materials.rs as a sum
type: `Lambertian` (lines 19-27), `Metal` (lines 45-53) and `Dielectric`
(lines 71-78). -/
inductive Material where
  | Lambertian (albedo : Vec3)
  | Metal (albedo : Vec3) (fuzziness : ℝ)
  | Dielectric (refraction_index : ℝ)

/-- Mirror of `Dielectric::reflectance` (src/src/math/materials.rs
lines 81-85), Schlick's approximation. -/
noncomputable def Dielectric.reflectance (cosine refraction_index : ℝ) : ℝ :=
  let r0 := (1 - refraction_index) / (1 + refraction_index)
  let r1 := r0 * r0
  r1 + (1 - r1) * (1 - cosine) ^ 5

/-- The `cos_theta` computed by `Dielectric::scatter`
(src/src/math/materials.rs line 97): `(-1.0 * unit_dir.dot(normal)).min(1.0)`. -/
noncomputable def Dielectric.cosTheta (r : Ray) (rec : HitRecord) : ℝ :=
  min ((-1 : ℝ) * r.dir.unit.dot rec.normal) 1

/-- Mirror of the three `Material::scatter` implementations
(src/src/math/materials.rs lines 29-42, 56-69, 88-115).  The source draws
from a global RNG; the draws are passed explicitly: `rand_unit` stands for
`Vec3::random_unit_vector()` and `rand_draw` for `random::<f64>()`. -/
noncomputable def Material.scatter (m : Material) (r : Ray) (rec : HitRecord)
    (rand_unit : Vec3) (rand_draw : ℝ) : Option ScatterResult :=
  match m with
  | Material.Lambertian albedo =>
    let scatter_dir := rec.normal + rand_unit
    let scatter_dir := if scatter_dir.near_zero then rec.normal else scatter_dir
    some { scattered := ⟨rec.point, scatter_dir⟩, attenuation := albedo }
  | Material.Metal albedo fuzziness =>
    let reflected := (reflect r.dir rec.normal).unit + fuzziness * rand_unit
    if reflected.dot rec.normal < 0 then none
    else some { scattered := ⟨rec.point, reflected⟩, attenuation := albedo }
  | Material.Dielectric refraction_index =>
    let ri := if rec.front_face then 1 / refraction_index else refraction_index
    let unit_dir := r.dir.unit
    let cos_theta := min ((-1 : ℝ) * unit_dir.dot rec.normal) 1
    let sin_theta := Real.sqrt (1 - cos_theta * cos_theta)
    let cannot_refract := ri * sin_theta > 1
    let direction :=
      if cannot_refract ∨ Dielectric.reflectance cos_theta ri > rand_draw then
        reflect unit_dir rec.normal
      else
        refract unit_dir rec.normal ri
    some { scattered := ⟨rec.point, direction⟩, attenuation := ⟨1, 1, 1⟩ }

/-- Modelled from the spec: `Interval`, declared as `pub mod interval` in
src/src/math.rs but src/src/math/interval.rs is not in the source tree.
Spec §3: "Interval: `[min, max]` real bounds; supports containment and
value-clamping. Invariant: `min <= max`."  Clamping maps a value to the
nearest point of `[min, max]`. -/
structure Interval where
  min : ℝ
  max : ℝ

/-- Modelled from the spec: the `Interval` constructor. -/
def Interval.new (mn mx : ℝ) : Interval := ⟨mn, mx⟩

/-- Modelled from the spec: `Interval::clamp`, value-clamping to
`[min, max]`. -/
noncomputable def Interval.clamp (i : Interval) (x : ℝ) : ℝ :=
  if x < i.min then i.min else if x > i.max then i.max else x

/-- Mirror of `linear_to_gamma` (src/src/math.rs lines 189-195). -/
noncomputable def linear_to_gamma (x : ℝ) : ℝ :=
  if x > 0 then Real.sqrt x else 0

/-- Truncation toward zero, the rounding of Rust's float-to-integer `as`
cast. -/
noncomputable def rustTruncF64 (x : ℝ) : ℤ :=
  if 0 ≤ x then ⌊x⌋ else -⌊-x⌋

/-- Rust's saturating `as u8` cast of an `f64`: truncate toward zero, then
clamp into `0..=255`.  The channel is kept as a mathematical integer so that
the range claim about it is contentful. -/
noncomputable def rustAsU8 (x : ℝ) : ℤ :=
  max 0 (min 255 (rustTruncF64 x))

/-- Mirror of `Color` (src/src/renderers.rs lines 10-15); the `u8` channels
are carried as the integers produced by the `as u8` casts that build them. -/
structure Color where
  r : ℤ
  g : ℤ
  b : ℤ

/-- Mirror of `Color::new` (src/src/renderers.rs lines 24-26). -/
def Color.new (r g b : ℤ) : Color := ⟨r, g, b⟩

/-- Mirror of `From<Vec3> for Color` (src/src/math.rs lines 197-209):
per-channel gamma map, clamp into `[0.0, 0.9999]`, scale by 256 and cast. -/
noncomputable def colorFromVec3 (val : Vec3) : Color :=
  let interval := Interval.new 0 0.9999
  let r := linear_to_gamma val.x
  let g := linear_to_gamma val.y
  let b := linear_to_gamma val.z
  Color.new (rustAsU8 (interval.clamp r * 256)) (rustAsU8 (interval.clamp g * 256))
    (rustAsU8 (interval.clamp b * 256))

/-- Mirror of `Image` (src/src/renderers.rs lines 17-21). -/
structure Image where
  pixels : List (List Color)
  width : ℕ
  height : ℕ

/-- Mirror of `Image::new` (src/src/renderers.rs lines 35-41): a black image
of the requested dimensions, constructed without any validation. -/
def Image.new (width height : ℕ) : Image :=
  { width := width
    height := height
    pixels := List.replicate height (List.replicate width (Color.new 0 0 0)) }

/-- Mirror of `degrees_to_radians` (src/src/math.rs lines 13-15). -/
noncomputable def degrees_to_radians (degrees : ℝ) : ℝ :=
  degrees * Real.pi / 180

/-- Mirror of the `Camera` struct (src/src/camera.rs lines 13-44). -/
structure Camera where
  samples_per_pixel : ℕ
  pixel_scale_factor : ℝ
  camera_center : Vec3
  pixel_delta_u : Vec3
  pixel_delta_v : Vec3
  pixel00_loc : Vec3
  image : Image
  max_depth : ℤ
  vfov : ℝ
  lookfrom : Vec3
  lookat : Vec3
  vup : Vec3
  u : Vec3
  v : Vec3
  w : Vec3
  defocus_angle : ℝ
  focus_dist : ℝ
  defocus_disk_v : Vec3
  defocus_disk_u : Vec3

/-- Mirror of `Camera::initialize` (src/src/camera.rs lines 154-193).  Note
that line 170 of the source stores the bare cross product `vup × w` in `u`,
without normalizing it. -/
noncomputable def Camera.initialize (cam : Camera) : Camera :=
  let image_width := cam.image.width
  let image_height := cam.image.height
  let camera_center := cam.lookfrom
  let theta := degrees_to_radians cam.vfov
  let h := Real.tan (theta / 2)
  let viewport_height := 2 * h * cam.focus_dist
  let viewport_width := viewport_height * ((image_width : ℝ) / (image_height : ℝ))
  let w := (cam.lookfrom - cam.lookat).unit
  let u := cam.vup.cross w
  let v := w.cross u
  let viewport_u := viewport_width * u
  let viewport_v := (viewport_height * (-1 : ℝ)) * v
  let pixel_delta_u := viewport_u / (image_width : ℝ)
  let pixel_delta_v := viewport_v / (image_height : ℝ)
  let viewport_upper_left :=
    camera_center - cam.focus_dist * w - viewport_u / (2 : ℝ) - viewport_v / (2 : ℝ)
  let pixel00_loc := viewport_upper_left + (0.5 : ℝ) * (pixel_delta_u + pixel_delta_v)
  let defocus_radius := cam.focus_dist * Real.tan (degrees_to_radians (cam.defocus_angle / 2))
  { cam with
    camera_center := camera_center
    w := w
    u := u
    v := v
    pixel_delta_u := pixel_delta_u
    pixel_delta_v := pixel_delta_v
    pixel00_loc := pixel00_loc
    defocus_disk_u := u * defocus_radius
    defocus_disk_v := v * defocus_radius }

/-- Mirror of `Camera::new` (src/src/camera.rs lines 47-73): the default
configuration, then `initialize`. -/
noncomputable def Camera.new (image : Image) : Camera :=
  Camera.initialize
    { defocus_disk_v := Vec3.zero
      defocus_disk_u := Vec3.zero
      defocus_angle := 0
      focus_dist := 10
      samples_per_pixel := 20
      max_depth := 10
      pixel_scale_factor := 1 / 20
      camera_center := ⟨0, 0, 0⟩
      pixel_delta_u := Vec3.zero
      pixel_delta_v := Vec3.zero
      pixel00_loc := Vec3.zero
      image := image
      vfov := 90
      lookat := ⟨0, 0, -1⟩
      lookfrom := Vec3.zero
      u := Vec3.zero
      vup := ⟨0, 1, 0⟩
      v := Vec3.zero
      w := Vec3.zero }

/-- Mirror of `Camera::set_samples_per_pixel` (src/src/camera.rs
lines 134-137): the sample count is stored without any validation. -/
noncomputable def Camera.set_samples_per_pixel (cam : Camera) (samples : ℕ) : Camera :=
  { cam with
    samples_per_pixel := samples
    pixel_scale_factor := 1 / (samples : ℝ) }

/-- Mirror of `Camera::set_camera_pos` (src/src/camera.rs lines 148-152). -/
noncomputable def Camera.set_camera_pos (cam : Camera) (lookfrom lookat : Vec3) : Camera :=
  Camera.initialize { cam with lookat := lookat, lookfrom := lookfrom }

/-- Mirror of `Camera::set_vfov` (src/src/camera.rs lines 143-146). -/
noncomputable def Camera.set_vfov (cam : Camera) (vfov : ℝ) : Camera :=
  Camera.initialize { cam with vfov := vfov }

/-- Mirror of `Camera::set_aperture` (src/src/camera.rs lines 84-88). -/
noncomputable def Camera.set_aperture (cam : Camera) (defocus_angle focus_dist : ℝ) : Camera :=
  Camera.initialize { cam with defocus_angle := defocus_angle, focus_dist := focus_dist }

/-! Helper lemmas. -/

lemma Vec3.length_squared_nonneg (v : Vec3) : 0 ≤ v.length_squared := by
  simp only [Vec3.length_squared, Vec3.dot_def]
  nlinarith [sq_nonneg v.x, sq_nonneg v.y, sq_nonneg v.z]

lemma Vec3.length_squared_pos (v : Vec3) (h : v ≠ Vec3.zero) : 0 < v.length_squared := by
  rcases lt_or_eq_of_le v.length_squared_nonneg with hlt | heq
  · exact hlt
  · exfalso
    apply h
    have hx : v.x = 0 ∧ v.y = 0 ∧ v.z = 0 := by
      simp only [Vec3.length_squared, Vec3.dot_def] at heq
      refine ⟨?_, ?_, ?_⟩ <;> nlinarith [sq_nonneg v.x, sq_nonneg v.y, sq_nonneg v.z]
    ext <;> simp [Vec3.zero, hx.1, hx.2.1, hx.2.2]

lemma Vec3.length_nonneg (v : Vec3) : 0 ≤ v.length := Real.sqrt_nonneg _

lemma Vec3.length_pos (v : Vec3) (h : v ≠ Vec3.zero) : 0 < v.length := by
  rw [Vec3.length_eq_sqrt]
  exact Real.sqrt_pos.mpr (v.length_squared_pos h)

lemma Vec3.length_mul_self (v : Vec3) : v.length * v.length = v.length_squared := by
  rw [Vec3.length_eq_sqrt]
  exact Real.mul_self_sqrt v.length_squared_nonneg

lemma Vec3.unit_length_squared (v : Vec3) (h : v ≠ Vec3.zero) :
    v.unit.length_squared = 1 := by
  have hl : 0 < v.length := v.length_pos h
  have hm := v.length_mul_self
  simp only [Vec3.unit, Vec3.length_squared, Vec3.dot_def] at *
  field_simp
  nlinarith [hm]

lemma Vec3.unit_dot (v w : Vec3) : v.unit.dot w = v.dot w / v.length := by
  simp only [Vec3.unit, Vec3.dot_def]
  ring

/-- Cauchy-Schwarz for the componentwise dot product. -/
lemma Vec3.dot_sq_le (v w : Vec3) :
    v.dot w * v.dot w ≤ v.length_squared * w.length_squared := by
  simp only [Vec3.length_squared, Vec3.dot_def]
  nlinarith [sq_nonneg (v.x * w.y - v.y * w.x), sq_nonneg (v.x * w.z - v.z * w.x),
    sq_nonneg (v.y * w.z - v.z * w.y)]

lemma Sphere.qa_nonneg (r : Ray) : 0 ≤ Sphere.qa r :=
  Vec3.length_squared_nonneg _

lemma Sphere.root1_le_root2 (s : Sphere) (r : Ray) : s.root1 r ≤ s.root2 r := by
  rcases eq_or_lt_of_le (Sphere.qa_nonneg r) with ha | ha
  · simp [Sphere.root1, Sphere.root2, ← ha]
  · have hs := Real.sqrt_nonneg (s.discriminant r)
    exact (div_le_div_iff_of_pos_right ha).mpr (by linarith)

@[simp] lemma Sphere.mkRecord_t (s : Sphere) (r : Ray) (root : ℝ) :
    (s.mkRecord r root).t = root := by
  rw [Sphere.mkRecord, HitRecord.set_face_normal]
  split <;> rfl

@[simp] lemma Sphere.mkRecord_point (s : Sphere) (r : Ray) (root : ℝ) :
    (s.mkRecord r root).point = r.at root := by
  rw [Sphere.mkRecord, HitRecord.set_face_normal]
  split <;> rfl

/-- Expansion of the squared distance from a ray point to the sphere center
in terms of the quadratic coefficients of `Sphere::hit`. -/
lemma Sphere.dist_sq_expand (s : Sphere) (r : Ray) (t : ℝ) :
    (r.at t - s.center).length_squared =
      t * t * Sphere.qa r - 2 * t * s.qh r + (s.qc r + s.radius * s.radius) := by
  simp only [Sphere.qa, Sphere.qh, Sphere.qc, Sphere.oc, Ray.at, Vec3.length_squared,
    Vec3.dot_def, Vec3.add_def, Vec3.sub_def, Vec3.smul_def]
  ring

/-- Both candidate roots are exact roots of the quadratic, hence the hit
point lies exactly on the sphere. -/
lemma Sphere.root_on_sphere (s : Sphere) (r : Ray) (hd : 0 ≤ s.discriminant r)
    (ha : Sphere.qa r ≠ 0) (t : ℝ) (ht : t = s.root1 r ∨ t = s.root2 r) :
    (r.at t - s.center).length_squared = s.radius * s.radius := by
  have hsq := Real.mul_self_sqrt hd
  have hdisc : s.discriminant r = s.qh r * s.qh r - Sphere.qa r * s.qc r := rfl
  rw [Sphere.dist_sq_expand]
  have hzero : t * t * Sphere.qa r - 2 * t * s.qh r + s.qc r = 0 := by
    rcases ht with ht | ht <;> subst ht
    · unfold Sphere.root1
      field_simp
      linear_combination (Sphere.qa r * Sphere.qa r) * hsq +
        (Sphere.qa r * Sphere.qa r) * hdisc
    · unfold Sphere.root2
      field_simp
      linear_combination (Sphere.qa r * Sphere.qa r) * hsq +
        (Sphere.qa r * Sphere.qa r) * hdisc
  linarith

/-- C2: for every sphere and ray, `Sphere::hit` with bounds `(t_min, t_max)`
returns `NoHit` on negative discriminant; otherwise it returns the smaller
root when that root lies strictly inside the open interval, else the larger
root when that lies strictly inside, else `NoHit`; on success the record's
`t` is the chosen root and its `point` is `ray.at(t)`. -/
theorem sphere_hit_root_selection (s : Sphere) (r : Ray) (tmin tmax : ℝ) :
    (s.discriminant r < 0 → s.hit r tmin tmax = HitResult.NoHit) ∧
    (0 ≤ s.discriminant r →
      ((tmin < s.root1 r ∧ s.root1 r < tmax →
         ∃ rec, s.hit r tmin tmax = HitResult.Hit rec ∧ rec.t = s.root1 r ∧
           rec.point = r.at (s.root1 r)) ∧
       (¬(tmin < s.root1 r ∧ s.root1 r < tmax) →
         tmin < s.root2 r ∧ s.root2 r < tmax →
         ∃ rec, s.hit r tmin tmax = HitResult.Hit rec ∧ rec.t = s.root2 r ∧
           rec.point = r.at (s.root2 r)) ∧
       (¬(tmin < s.root1 r ∧ s.root1 r < tmax) →
         ¬(tmin < s.root2 r ∧ s.root2 r < tmax) →
         s.hit r tmin tmax = HitResult.NoHit))) := by
  have hcond : ∀ x : ℝ, (x ≤ tmin ∨ tmax ≤ x) ↔ ¬(tmin < x ∧ x < tmax) := by
    intro x
    rw [not_and_or, not_lt, not_lt]
  constructor
  · intro hd
    simp [Sphere.hit, hd]
  · intro hd
    have hnd : ¬ s.discriminant r < 0 := not_lt.mpr hd
    refine ⟨?_, ?_, ?_⟩
    · intro h1
      have hc1 : ¬(s.root1 r ≤ tmin ∨ tmax ≤ s.root1 r) := by
        rw [hcond]
        exact not_not_intro h1
      refine ⟨s.mkRecord r (s.root1 r), ?_, by simp, by simp⟩
      simp [Sphere.hit, hnd, hc1]
    · intro h1 h2
      have hc1 : s.root1 r ≤ tmin ∨ tmax ≤ s.root1 r := (hcond _).mpr h1
      have hc2 : ¬(s.root2 r ≤ tmin ∨ tmax ≤ s.root2 r) := by
        rw [hcond]
        exact not_not_intro h2
      refine ⟨s.mkRecord r (s.root2 r), ?_, by simp, by simp⟩
      simp [Sphere.hit, hnd, hc1, hc2]
    · intro h1 h2
      have hc1 : s.root1 r ≤ tmin ∨ tmax ≤ s.root1 r := (hcond _).mpr h1
      have hc2 : s.root2 r ≤ tmin ∨ tmax ≤ s.root2 r := (hcond _).mpr h2
      simp [Sphere.hit, hnd, hc1, hc2]

/-- Unit sphere at the origin, used to instantiate theorems. -/
def wSphere : Sphere := ⟨⟨0, 0, 0⟩, 1⟩

/-- Ray from `(0,0,-2)` toward the origin, used to instantiate theorems. -/
def wRay : Ray := ⟨⟨0, 0, -2⟩, ⟨0, 0, 1⟩⟩

lemma wSphere_disc : wSphere.discriminant wRay = 1 := by
  simp only [Sphere.discriminant, Sphere.qh, Sphere.qc, Sphere.qa, Sphere.oc, wSphere, wRay,
    Vec3.length_squared, Vec3.dot_def, Vec3.sub_def]
  norm_num

lemma wSphere_root1 : wSphere.root1 wRay = 1 := by
  simp only [Sphere.root1, wSphere_disc, Real.sqrt_one]
  simp only [Sphere.qh, Sphere.qa, Sphere.oc, wSphere, wRay, Vec3.length_squared,
    Vec3.dot_def, Vec3.sub_def]
  norm_num

theorem sphere_hit_root_selection_witness :
    0 ≤ wSphere.discriminant wRay ∧
    (0 < wSphere.root1 wRay ∧ wSphere.root1 wRay < 10) ∧
    ∃ rec, wSphere.hit wRay 0 10 = HitResult.Hit rec ∧ rec.t = wSphere.root1 wRay ∧
      rec.point = wRay.at (wSphere.root1 wRay) := by
  have hd : 0 ≤ wSphere.discriminant wRay := by rw [wSphere_disc]; norm_num
  have h1 : 0 < wSphere.root1 wRay ∧ wSphere.root1 wRay < 10 := by
    rw [wSphere_root1]
    norm_num
  exact ⟨hd, h1, ((sphere_hit_root_selection wSphere wRay 0 10).2 hd).1 h1⟩

/-- C6: a scatter call is absorbed (returns `None`) exactly when the
material is `Metal` and the fuzz-perturbed reflection points into the
surface; `Lambertian` and `Dielectric` always scatter. -/
theorem scatter_absorbed_iff_metal (m : Material) (r : Ray) (rec : HitRecord)
    (rv : Vec3) (draw : ℝ) :
    Material.scatter m r rec rv draw = none ↔
      ∃ albedo fuzziness, m = Material.Metal albedo fuzziness ∧
        ((reflect r.dir rec.normal).unit + fuzziness * rv).dot rec.normal < 0 := by
  cases m with
  | Lambertian albedo => simp [Material.scatter]
  | Metal albedo fuzziness =>
    simp only [Material.scatter]
    by_cases h : ((reflect r.dir rec.normal).unit + fuzziness * rv).dot rec.normal < 0
    · rw [if_pos h]
      constructor
      · intro _
        exact ⟨albedo, fuzziness, rfl, h⟩
      · intro _
        rfl
    · rw [if_neg h]
      constructor
      · intro hc
        exact absurd hc (by simp)
      · rintro ⟨a, f, heq, hdot⟩
        cases heq
        exact absurd hdot h
  | Dielectric refraction_index => simp [Material.scatter]

/-- Characterization of the `HittableList::hit` loop: starting from result
`res` and bound `closest`, the loop either leaves `res` untouched (when no
child reports a hit below `closest`) or returns a reported hit of minimal
parameter below `closest`. -/
lemma hitLoop_spec (r : Ray) (tmin tmax : ℝ) :
    ∀ (objects : List HittableFn) (res : HitResult) (closest : ℝ),
      (hitLoop objects r tmin tmax res closest = res ∧
        ∀ o ∈ objects, ∀ rec, o r tmin tmax = HitResult.Hit rec → closest ≤ rec.t) ∨
      (∃ rec, hitLoop objects r tmin tmax res closest = HitResult.Hit rec ∧
        (∃ o ∈ objects, o r tmin tmax = HitResult.Hit rec) ∧ rec.t < closest ∧
        ∀ o ∈ objects, ∀ rec2, o r tmin tmax = HitResult.Hit rec2 → rec.t ≤ rec2.t) := by
  intro objects
  induction objects with
  | nil =>
    intro res closest
    left
    exact ⟨rfl, by simp⟩
  | cons o rest ih =>
    intro res closest
    cases ho : o r tmin tmax with
    | NoHit =>
      rcases ih res closest with ⟨h1, h2⟩ | ⟨rec, h1, ⟨o2, ho2, hrec⟩, hlt, hmin⟩
      · left
        refine ⟨?_, ?_⟩
        · simp only [hitLoop, ho]
          exact h1
        · intro o3 ho3 rec hrec
          rcases List.mem_cons.mp ho3 with rfl | hmem
          · rw [ho] at hrec
            simp at hrec
          · exact h2 o3 hmem rec hrec
      · right
        refine ⟨rec, ?_, ⟨o2, List.mem_cons_of_mem _ ho2, hrec⟩, hlt, ?_⟩
        · simp only [hitLoop, ho]
          exact h1
        · intro o3 ho3 rec2 hrec2
          rcases List.mem_cons.mp ho3 with rfl | hmem
          · rw [ho] at hrec2
            simp at hrec2
          · exact hmin o3 hmem rec2 hrec2
    | Hit rhd =>
      by_cases hcl : closest > rhd.t
      · rcases ih (HitResult.Hit rhd) rhd.t with ⟨h1, h2⟩ | ⟨rec, h1, ⟨o2, ho2, hrec⟩, hlt, hmin⟩
        · right
          refine ⟨rhd, ?_, ⟨o, List.mem_cons_self _ _, ho⟩, hcl, ?_⟩
          · simp only [hitLoop, ho, if_pos hcl]
            exact h1
          · intro o3 ho3 rec2 hrec2
            rcases List.mem_cons.mp ho3 with rfl | hmem
            · rw [ho] at hrec2
              cases hrec2
              exact le_refl _
            · exact h2 o3 hmem rec2 hrec2
        · right
          refine ⟨rec, ?_, ⟨o2, List.mem_cons_of_mem _ ho2, hrec⟩, lt_trans hlt hcl, ?_⟩
          · simp only [hitLoop, ho, if_pos hcl]
            exact h1
          · intro o3 ho3 rec2 hrec2
            rcases List.mem_cons.mp ho3 with rfl | hmem
            · rw [ho] at hrec2
              cases hrec2
              exact le_of_lt hlt
            · exact hmin o3 hmem rec2 hrec2
      · rcases ih res closest with ⟨h1, h2⟩ | ⟨rec, h1, ⟨o2, ho2, hrec⟩, hlt, hmin⟩
        · left
          refine ⟨?_, ?_⟩
          · simp only [hitLoop, ho, if_neg hcl]
            exact h1
          · intro o3 ho3 rec2 hrec2
            rcases List.mem_cons.mp ho3 with rfl | hmem
            · rw [ho] at hrec2
              cases hrec2
              exact le_of_not_lt hcl
            · exact h2 o3 hmem rec2 hrec2
        · right
          refine ⟨rec, ?_, ⟨o2, List.mem_cons_of_mem _ ho2, hrec⟩, hlt, ?_⟩
          · simp only [hitLoop, ho, if_neg hcl]
            exact h1
          · intro o3 ho3 rec2 hrec2
            rcases List.mem_cons.mp ho3 with rfl | hmem
            · rw [ho] at hrec2
              cases hrec2
              exact le_trans (le_of_lt hlt) (le_of_not_lt hcl)
            · exact hmin o3 hmem rec2 hrec2

/-- C1: for children honoring the `Hittable` contract (a reported hit lies
strictly inside the queried bounds), `HittableList::hit` returns `NoHit` when
no child reports a hit, and otherwise a reported hit of globally minimal
parameter `t`, so a farther-away hit is never selected. -/
theorem hittableList_hit_closest (objects : List HittableFn) (r : Ray)
    (tmin tmax : ℝ) (_hbounds : tmin < tmax)
    (hcontract : ∀ o ∈ objects, ∀ rec, o r tmin tmax = HitResult.Hit rec →
      tmin < rec.t ∧ rec.t < tmax) :
    ((∀ o ∈ objects, o r tmin tmax = HitResult.NoHit) →
      HittableList.hit ⟨objects⟩ r tmin tmax = HitResult.NoHit) ∧
    (∀ o₀ ∈ objects, ∀ rec₀, o₀ r tmin tmax = HitResult.Hit rec₀ →
      ∃ rec, HittableList.hit ⟨objects⟩ r tmin tmax = HitResult.Hit rec ∧
        (∃ o ∈ objects, o r tmin tmax = HitResult.Hit rec) ∧
        tmin < rec.t ∧ rec.t < tmax ∧
        ∀ o ∈ objects, ∀ rec2, o r tmin tmax = HitResult.Hit rec2 → rec.t ≤ rec2.t) := by
  constructor
  · intro hall
    rcases hitLoop_spec r tmin tmax objects HitResult.NoHit tmax with
      ⟨h1, _⟩ | ⟨rec, _, ⟨o, ho, hrec⟩, _, _⟩
    · exact h1
    · rw [hall o ho] at hrec
      simp at hrec
  · intro o₀ ho₀ rec₀ hrec₀
    rcases hitLoop_spec r tmin tmax objects HitResult.NoHit tmax with
      ⟨_, h2⟩ | ⟨rec, h1, hex, hlt, hmin⟩
    · have := h2 o₀ ho₀ rec₀ hrec₀
      have := (hcontract o₀ ho₀ rec₀ hrec₀).2
      linarith
    · obtain ⟨o, ho, hrec⟩ := hex
      refine ⟨rec, h1, ⟨o, ho, hrec⟩, ?_, ?_, hmin⟩
      · exact (hcontract o ho rec hrec).1
      · exact (hcontract o ho rec hrec).2

/-- Constant child reporting a hit at parameter 2, used to instantiate
theorems. -/
def wChildA : HittableFn := fun _ _ _ => HitResult.Hit ⟨⟨0, 0, 0⟩, ⟨0, 0, 1⟩, 2, true⟩

/-- Constant child reporting a hit at parameter 1, used to instantiate
theorems. -/
def wChildB : HittableFn := fun _ _ _ => HitResult.Hit ⟨⟨0, 0, 0⟩, ⟨0, 0, 1⟩, 1, true⟩

theorem hittableList_hit_closest_witness :
    (0 : ℝ) < 3 ∧
    (∀ o ∈ [wChildA, wChildB], ∀ rec, o wRay 0 3 = HitResult.Hit rec →
      (0 : ℝ) < rec.t ∧ rec.t < 3) ∧
    ∃ rec, HittableList.hit ⟨[wChildA, wChildB]⟩ wRay 0 3 = HitResult.Hit rec ∧
      (∃ o ∈ [wChildA, wChildB], o wRay 0 3 = HitResult.Hit rec) ∧
      (0 : ℝ) < rec.t ∧ rec.t < 3 ∧
      ∀ o ∈ [wChildA, wChildB], ∀ rec2, o wRay 0 3 = HitResult.Hit rec2 →
        rec.t ≤ rec2.t := by
  have hcontract : ∀ o ∈ [wChildA, wChildB], ∀ rec, o wRay 0 3 = HitResult.Hit rec →
      (0 : ℝ) < rec.t ∧ rec.t < 3 := by
    intro o ho rec hrec
    rcases List.mem_cons.mp ho with rfl | ho
    · simp only [wChildA] at hrec
      cases hrec
      norm_num
    rcases List.mem_cons.mp ho with rfl | ho
    · simp only [wChildB] at hrec
      cases hrec
      norm_num
    simp at ho
  refine ⟨by norm_num, hcontract, ?_⟩
  exact (hittableList_hit_closest [wChildA, wChildB] wRay 0 3 (by norm_num) hcontract).2
    wChildA (by simp) ⟨⟨0, 0, 0⟩, ⟨0, 0, 1⟩, 2, true⟩ rfl

/-- Shrinking the upper bound of `Sphere::hit` from `tmax` to `tp ≤ tmax`
keeps a hit below `tp` unchanged and turns everything else into `NoHit`. -/
lemma sphere_hit_restrict (s : Sphere) (r : Ray) (tmin tp tmax : ℝ) (h : tp ≤ tmax) :
    (s.hit r tmin tmax = HitResult.NoHit → s.hit r tmin tp = HitResult.NoHit) ∧
    (∀ rec, s.hit r tmin tmax = HitResult.Hit rec →
      (rec.t < tp → s.hit r tmin tp = HitResult.Hit rec) ∧
      (tp ≤ rec.t → s.hit r tmin tp = HitResult.NoHit)) := by
  by_cases hd : s.discriminant r < 0
  · constructor
    · intro _
      simp [Sphere.hit, hd]
    · intro rec hrec
      simp [Sphere.hit, hd] at hrec
  · have hle := Sphere.root1_le_root2 s r
    by_cases h1 : s.root1 r ≤ tmin ∨ tmax ≤ s.root1 r
    · have h1p : s.root1 r ≤ tmin ∨ tp ≤ s.root1 r := by
        rcases h1 with hx | hx
        · exact Or.inl hx
        · exact Or.inr (le_trans h hx)
      by_cases h2 : s.root2 r ≤ tmin ∨ tmax ≤ s.root2 r
      · have h2p : s.root2 r ≤ tmin ∨ tp ≤ s.root2 r := by
          rcases h2 with hx | hx
          · exact Or.inl hx
          · exact Or.inr (le_trans h hx)
        constructor
        · intro _
          simp [Sphere.hit, hd, h1p, h2p]
        · intro rec hrec
          simp [Sphere.hit, hd, h1, h2] at hrec
      · constructor
        · intro hfull
          simp [Sphere.hit, hd, h1, h2] at hfull
        · intro rec hrec
          have hrec2 : rec = s.mkRecord r (s.root2 r) := by
            simp [Sphere.hit, hd, h1, h2] at hrec
            exact hrec.symm
          have hrt : rec.t = s.root2 r := by
            rw [hrec2]
            simp
          push_neg at h2
          constructor
          · intro hlt
            have h2p : ¬(s.root2 r ≤ tmin ∨ tp ≤ s.root2 r) := by
              push_neg
              refine ⟨h2.1, ?_⟩
              rw [hrt] at hlt
              exact hlt
            rw [hrec2]
            simp [Sphere.hit, hd, h1p, h2p]
          · intro hge
            have h2p : s.root2 r ≤ tmin ∨ tp ≤ s.root2 r := by
              right
              rw [hrt] at hge
              exact hge
            simp [Sphere.hit, hd, h1p, h2p]
    · push_neg at h1
      have h1f : ¬(s.root1 r ≤ tmin ∨ tmax ≤ s.root1 r) := by
        push_neg
        exact h1
      constructor
      · intro hfull
        simp [Sphere.hit, hd, h1f] at hfull
      · intro rec hrec
        have hrec2 : rec = s.mkRecord r (s.root1 r) := by
          simp [Sphere.hit, hd, h1f] at hrec
          exact hrec.symm
        have hrt : rec.t = s.root1 r := by
          rw [hrec2]
          simp
        constructor
        · intro hlt
          have h1p : ¬(s.root1 r ≤ tmin ∨ tp ≤ s.root1 r) := by
            push_neg
            refine ⟨h1.1, ?_⟩
            rw [hrt] at hlt
            exact hlt
          rw [hrec2]
          simp [Sphere.hit, hd, h1p]
        · intro hge
          rw [hrt] at hge
          have h1p : s.root1 r ≤ tmin ∨ tp ≤ s.root1 r := Or.inr hge
          have h2p : s.root2 r ≤ tmin ∨ tp ≤ s.root2 r := Or.inr (le_trans hge hle)
          simp [Sphere.hit, hd, h1p, h2p]

/-- The filtering loop of `HittableList::hit` and the specified shrinking
scan coincide on lists of spheres, for any loop state with
`closest ≤ tmax`. -/
lemma hitLoop_shrink_eq (r : Ray) (tmin tmax : ℝ) :
    ∀ (ss : List Sphere) (res : HitResult) (closest : ℝ), closest ≤ tmax →
      hitLoop (ss.map (fun s => s.hit)) r tmin tmax res closest =
      hitLoopShrink (ss.map (fun s => s.hit)) r tmin res closest := by
  intro ss
  induction ss with
  | nil =>
    intro res closest _
    rfl
  | cons s rest ih =>
    intro res closest hcl
    have hres := sphere_hit_restrict s r tmin closest tmax hcl
    cases hfull : s.hit r tmin tmax with
    | NoHit =>
      have hsh : s.hit r tmin closest = HitResult.NoHit := hres.1 hfull
      simp only [List.map_cons, hitLoop, hitLoopShrink, hfull, hsh]
      exact ih res closest hcl
    | Hit rec =>
      by_cases hlt : closest > rec.t
      · have hsh : s.hit r tmin closest = HitResult.Hit rec := (hres.2 rec hfull).1 hlt
        simp only [List.map_cons, hitLoop, hitLoopShrink, hfull, hsh, if_pos hlt]
        exact ih (HitResult.Hit rec) rec.t (le_trans (le_of_lt hlt) hcl)
      · have hge : closest ≤ rec.t := le_of_not_lt hlt
        have hsh : s.hit r tmin closest = HitResult.NoHit := (hres.2 rec hfull).2 hge
        simp only [List.map_cons, hitLoop, hitLoopShrink, hfull, hsh, if_neg hlt]
        exact ih res closest hcl

/-- C7: on every list of spheres, the implemented aggregate scan (children
queried with the unchanged upper bound, results filtered against the best
`t` so far) equals the specified scan with a shrinking upper bound. -/
theorem list_hit_refines_shrinking_scan (spheres : List Sphere) (r : Ray)
    (tmin tmax : ℝ) (_hbounds : tmin < tmax) :
    HittableList.hit ⟨spheres.map (fun s => s.hit)⟩ r tmin tmax =
    hitShrink (spheres.map (fun s => s.hit)) r tmin tmax := by
  unfold HittableList.hit hitShrink
  exact hitLoop_shrink_eq r tmin tmax spheres HitResult.NoHit tmax (le_refl _)

theorem list_hit_refines_shrinking_scan_witness :
    (0 : ℝ) < 3 ∧
    HittableList.hit ⟨[wSphere].map (fun s => s.hit)⟩ wRay 0 3 =
      hitShrink ([wSphere].map (fun s => s.hit)) wRay 0 3 :=
  ⟨by norm_num, list_hit_refines_shrinking_scan [wSphere] wRay 0 3 (by norm_num)⟩

lemma HitRecord.set_face_normal_front (rec : HitRecord) (r : Ray) (n : Vec3)
    (h : r.dir.dot n < 0) :
    rec.set_face_normal r n = { rec with front_face := true, normal := n } := by
  rw [HitRecord.set_face_normal, if_pos h]

lemma HitRecord.set_face_normal_back (rec : HitRecord) (r : Ray) (n : Vec3)
    (h : ¬ r.dir.dot n < 0) :
    rec.set_face_normal r n =
      { rec with front_face := false, normal := (-1 : ℝ) * n } := by
  rw [HitRecord.set_face_normal, if_neg h]

lemma Vec3.length_squared_div (v : Vec3) (c : ℝ) :
    (v / c).length_squared = v.length_squared / (c * c) := by
  simp only [Vec3.divc_def, Vec3.length_squared, Vec3.dot_def]
  ring

lemma Vec3.length_squared_neg_one_smul (v : Vec3) :
    ((-1 : ℝ) * v).length_squared = v.length_squared := by
  simp only [Vec3.smul_def, Vec3.length_squared, Vec3.dot_def]
  ring

lemma Vec3.dot_neg_one_smul_right (v w : Vec3) :
    v.dot ((-1 : ℝ) * w) = -(v.dot w) := by
  simp only [Vec3.smul_def, Vec3.dot_def]
  ring

lemma Vec3.length_eq_one (v : Vec3) (h : v.length_squared = 1) : v.length = 1 := by
  rw [Vec3.length_eq_sqrt, h, Real.sqrt_one]

/-- The record `Sphere::hit` builds at an exact root of the quadratic has the
claimed invariants, provided the quadratic is nondegenerate. -/
lemma Sphere.mkRecord_invariants (s : Sphere) (r : Ray) (root : ℝ)
    (hrad : 0 < s.radius) (ha : Sphere.qa r ≠ 0) (hd : 0 ≤ s.discriminant r)
    (hroot : root = s.root1 r ∨ root = s.root2 r) :
    (s.mkRecord r root).normal.length = 1 ∧
      r.dir.dot (s.mkRecord r root).normal ≤ 0 ∧
      ((s.mkRecord r root).front_face = true ↔
        r.dir.dot (((s.mkRecord r root).point - s.center) / s.radius) < 0) := by
  have hsphere := s.root_on_sphere r hd ha root hroot
  have hradne : s.radius ≠ 0 := ne_of_gt hrad
  have hout : ((r.at root - s.center) / s.radius).length_squared = 1 := by
    rw [Vec3.length_squared_div, hsphere]
    field_simp
  by_cases hf : r.dir.dot ((r.at root - s.center) / s.radius) < 0
  · have heq : s.mkRecord r root =
        { t := root, point := r.at root,
          normal := (r.at root - s.center) / s.radius, front_face := true } := by
      rw [Sphere.mkRecord]
      exact HitRecord.set_face_normal_front _ r _ hf
    rw [heq]
    refine ⟨Vec3.length_eq_one _ hout, le_of_lt hf, ?_⟩
    simpa using hf
  · have heq : s.mkRecord r root =
        { t := root, point := r.at root,
          normal := (-1 : ℝ) * ((r.at root - s.center) / s.radius),
          front_face := false } := by
      rw [Sphere.mkRecord]
      exact HitRecord.set_face_normal_back _ r _ hf
    rw [heq]
    refine ⟨?_, ?_, ?_⟩
    · exact Vec3.length_eq_one _ (by rw [Vec3.length_squared_neg_one_smul]; exact hout)
    · rw [Vec3.dot_neg_one_smul_right]
      linarith [le_of_not_lt hf]
    · simpa using hf

/-- C9 (amended with a nonzero ray direction): every hit record produced by
`Sphere::hit` on a sphere of positive radius from a ray of nonzero direction
carries a unit-length normal oriented against the incident ray, and its
`front_face` flag is true iff the ray direction has negative dot product with
the outward normal `(point - center) / radius`. -/
theorem sphere_hit_record_invariants (s : Sphere) (r : Ray) (tmin tmax : ℝ)
    (rec : HitRecord) (hrad : 0 < s.radius) (hdir : r.dir ≠ Vec3.zero)
    (hhit : s.hit r tmin tmax = HitResult.Hit rec) :
    rec.normal.length = 1 ∧ r.dir.dot rec.normal ≤ 0 ∧
      (rec.front_face = true ↔
        r.dir.dot ((rec.point - s.center) / s.radius) < 0) := by
  have ha : Sphere.qa r ≠ 0 := ne_of_gt (Vec3.length_squared_pos _ hdir)
  by_cases hd : s.discriminant r < 0
  · simp [Sphere.hit, hd] at hhit
  · have hd' : 0 ≤ s.discriminant r := le_of_not_lt hd
    by_cases h1 : s.root1 r ≤ tmin ∨ tmax ≤ s.root1 r
    · by_cases h2 : s.root2 r ≤ tmin ∨ tmax ≤ s.root2 r
      · simp [Sphere.hit, hd, h1, h2] at hhit
      · have hrec : rec = s.mkRecord r (s.root2 r) := by
          simp [Sphere.hit, hd, h1, h2] at hhit
          exact hhit.symm
        rw [hrec]
        exact s.mkRecord_invariants r _ hrad ha hd' (Or.inr rfl)
    · have hrec : rec = s.mkRecord r (s.root1 r) := by
        simp [Sphere.hit, hd, h1] at hhit
        exact hhit.symm
      rw [hrec]
      exact s.mkRecord_invariants r _ hrad ha hd' (Or.inl rfl)

theorem sphere_hit_record_invariants_witness :
    (0 : ℝ) < wSphere.radius ∧ wRay.dir ≠ Vec3.zero ∧
    ∃ rec, wSphere.hit wRay 0 10 = HitResult.Hit rec ∧
      (rec.normal.length = 1 ∧ wRay.dir.dot rec.normal ≤ 0 ∧
        (rec.front_face = true ↔
          wRay.dir.dot ((rec.point - wSphere.center) / wSphere.radius) < 0)) := by
  have hrad : (0 : ℝ) < wSphere.radius := by norm_num [wSphere]
  have hdir : wRay.dir ≠ Vec3.zero := by
    simp only [wRay, Vec3.zero, ne_eq, Vec3.mk.injEq]
    norm_num
  have hd : ¬(wSphere.discriminant wRay < 0) := by
    rw [wSphere_disc]
    norm_num
  have h1 : ¬(wSphere.root1 wRay ≤ 0 ∨ (10 : ℝ) ≤ wSphere.root1 wRay) := by
    rw [wSphere_root1]
    norm_num
  have hhit : wSphere.hit wRay 0 10 =
      HitResult.Hit (wSphere.mkRecord wRay (wSphere.root1 wRay)) := by
    simp [Sphere.hit, hd, h1]
  exact ⟨hrad, hdir, _, hhit,
    sphere_hit_record_invariants wSphere wRay 0 10 _ hrad hdir hhit⟩

/-- Evaluation of `Sphere::hit` on a zero-direction ray: the quadratic
degenerates (`a = 0`), the guard does not fire, the root computation divides
zero by zero, and a degenerate hit record is produced.  (Under IEEE
semantics the same call produces a `NaN` record, which equally violates the
unit-normal invariant.) -/
lemma sphere_hit_zero_dir_eval :
    Sphere.hit ⟨⟨5, 0, 0⟩, 1⟩ ⟨⟨0, 0, 0⟩, ⟨0, 0, 0⟩⟩ (-1) 1 =
      HitResult.Hit ⟨⟨0, 0, 0⟩, ⟨5, 0, 0⟩, 0, false⟩ := by
  have hdisc : Sphere.discriminant ⟨⟨5, 0, 0⟩, 1⟩ ⟨⟨0, 0, 0⟩, ⟨0, 0, 0⟩⟩ = 0 := by
    simp only [Sphere.discriminant, Sphere.qh, Sphere.qa, Sphere.qc, Sphere.oc,
      Vec3.length_squared, Vec3.dot_def, Vec3.sub_def]
    norm_num
  have hqh : Sphere.qh ⟨⟨5, 0, 0⟩, 1⟩ ⟨⟨0, 0, 0⟩, ⟨0, 0, 0⟩⟩ = 0 := by
    simp only [Sphere.qh, Sphere.oc, Vec3.dot_def, Vec3.sub_def]
    norm_num
  have hroot1 : Sphere.root1 ⟨⟨5, 0, 0⟩, 1⟩ ⟨⟨0, 0, 0⟩, ⟨0, 0, 0⟩⟩ = 0 := by
    rw [Sphere.root1, hdisc, hqh, Real.sqrt_zero]
    norm_num
  have hd : ¬(Sphere.discriminant ⟨⟨5, 0, 0⟩, 1⟩ ⟨⟨0, 0, 0⟩, ⟨0, 0, 0⟩⟩ < 0) := by
    rw [hdisc]
    norm_num
  have h1 : ¬(Sphere.root1 ⟨⟨5, 0, 0⟩, 1⟩ ⟨⟨0, 0, 0⟩, ⟨0, 0, 0⟩⟩ ≤ (-1 : ℝ) ∨
      (1 : ℝ) ≤ Sphere.root1 ⟨⟨5, 0, 0⟩, 1⟩ ⟨⟨0, 0, 0⟩, ⟨0, 0, 0⟩⟩) := by
    rw [hroot1]
    norm_num
  have hface : ¬((⟨⟨0, 0, 0⟩, ⟨0, 0, 0⟩⟩ : Ray).dir.dot
      ((Ray.at ⟨⟨0, 0, 0⟩, ⟨0, 0, 0⟩⟩ 0 - (⟨5, 0, 0⟩ : Vec3)) / (1 : ℝ)) < 0) := by
    simp only [Ray.at, Vec3.add_def, Vec3.smul_def, Vec3.sub_def, Vec3.divc_def, Vec3.dot_def]
    norm_num
  rw [Sphere.hit, if_neg hd, if_neg h1, hroot1]
  rw [Sphere.mkRecord]
  rw [HitRecord.set_face_normal_back _ _ _ hface]
  simp only [Ray.at, Vec3.add_def, Vec3.smul_def, Vec3.sub_def, Vec3.divc_def,
    HitResult.Hit.injEq, HitRecord.mk.injEq, Vec3.mk.injEq]
  norm_num

/-- C9 (counterexample to the unqualified claim): a zero-direction ray hits
a positive-radius sphere through the unguarded `0/0` root and receives a
record whose normal has length 5, not 1. -/
theorem sphere_hit_normal_counterexample :
    (0 : ℝ) < (Sphere.mk ⟨5, 0, 0⟩ 1).radius ∧
    Sphere.hit ⟨⟨5, 0, 0⟩, 1⟩ ⟨⟨0, 0, 0⟩, ⟨0, 0, 0⟩⟩ (-1) 1 =
      HitResult.Hit ⟨⟨0, 0, 0⟩, ⟨5, 0, 0⟩, 0, false⟩ ∧
    (⟨5, 0, 0⟩ : Vec3).length ≠ 1 := by
  refine ⟨by norm_num, sphere_hit_zero_dir_eval, ?_⟩
  have : (⟨5, 0, 0⟩ : Vec3).length = 5 := by
    simp only [Vec3.length]
    rw [show (5 : ℝ) * 5 + 0 * 0 + 0 * 0 = 5 ^ 2 by norm_num, Real.sqrt_sq (by norm_num)]
  rw [this]
  norm_num

/-- Snell refraction at ratio 1 between unit vectors with the normal facing
the incident direction is the identity. -/
lemma refract_identity (u n : Vec3) (hu : u.length_squared = 1)
    (hn : n.length_squared = 1) (hun : u.dot n ≤ 0) : refract u n 1 = u := by
  have hcs := Vec3.dot_sq_le u n
  rw [hu, hn] at hcs
  obtain ⟨ux, uy, uz⟩ := u
  obtain ⟨nx, ny, nz⟩ := n
  simp only [Vec3.length_squared, Vec3.dot_def] at hu hn hun hcs
  simp only [refract, Vec3.dot_def, Vec3.add_def, Vec3.smul_def, Vec3.length_squared]
  set D : ℝ := ux * nx + uy * ny + uz * nz with hD
  have hminus : -D ≤ 1 := by nlinarith
  rw [min_eq_left (by linarith : (-1 : ℝ) * D ≤ 1)]
  have hLS : 1 * (ux + -1 * D * nx) * (1 * (ux + -1 * D * nx)) +
      1 * (uy + -1 * D * ny) * (1 * (uy + -1 * D * ny)) +
      1 * (uz + -1 * D * nz) * (1 * (uz + -1 * D * nz)) = 1 - D * D := by
    linear_combination hu + D * D * hn + 2 * D * hD
  rw [hLS]
  have habs : |1 - (1 - D * D)| = D * D := by
    rw [show (1 : ℝ) - (1 - D * D) = D * D by ring]
    exact abs_of_nonneg (mul_self_nonneg D)
  rw [habs, Real.sqrt_mul_self_eq_abs, abs_of_nonpos hun]
  simp only [Vec3.mk.injEq]
  refine ⟨by ring, by ring, by ring⟩

/-- C5 (amended to the refraction branch): a `Dielectric` with
`refraction_index = 1.0` leaves the ray direction unchanged — the scattered
direction equals the unit incident direction — for every hit record with a
unit normal facing the incident ray, and every outcome of the uniform draw
that is at least the Schlick reflectance (the outcomes selecting
refraction).  Draw outcomes below the reflectance take the reflection
branch, which does change the direction (see the counterexample). -/
theorem dielectric_unit_index_refraction_id (r : Ray) (rec : HitRecord)
    (rv : Vec3) (draw : ℝ) (hn : rec.normal.length_squared = 1)
    (hgraze : r.dir.dot rec.normal < 0)
    (hdraw : Dielectric.reflectance (Dielectric.cosTheta r rec) 1 ≤ draw) :
    Material.scatter (Material.Dielectric 1) r rec rv draw =
      some { attenuation := ⟨1, 1, 1⟩, scattered := ⟨rec.point, r.dir.unit⟩ } := by
  have hdir : r.dir ≠ Vec3.zero := by
    intro h
    rw [h] at hgraze
    simp only [Vec3.zero, Vec3.dot_def] at hgraze
    norm_num at hgraze
  have hu : r.dir.unit.length_squared = 1 := Vec3.unit_length_squared _ hdir
  have hudot : r.dir.unit.dot rec.normal < 0 := by
    rw [Vec3.unit_dot]
    exact div_neg_of_neg_of_pos hgraze (Vec3.length_pos _ hdir)
  have hcs := Vec3.dot_sq_le r.dir.unit rec.normal
  rw [hu, hn] at hcs
  have hminus : -(r.dir.unit.dot rec.normal) ≤ 1 := by nlinarith
  have hcos : Dielectric.cosTheta r rec = -(r.dir.unit.dot rec.normal) := by
    rw [Dielectric.cosTheta, min_eq_left (by linarith)]
    ring
  have hcos_le : Dielectric.cosTheta r rec ≤ 1 := by rw [hcos]; exact hminus
  have hcos_nonneg : 0 ≤ Dielectric.cosTheta r rec := by rw [hcos]; linarith
  have hsin : Real.sqrt (1 - Dielectric.cosTheta r rec * Dielectric.cosTheta r rec) ≤ 1 := by
    have h1 : (1 : ℝ) - Dielectric.cosTheta r rec * Dielectric.cosTheta r rec ≤ 1 := by
      nlinarith
    calc Real.sqrt (1 - Dielectric.cosTheta r rec * Dielectric.cosTheta r rec)
        ≤ Real.sqrt 1 := Real.sqrt_le_sqrt h1
      _ = 1 := Real.sqrt_one
  have hri : (if rec.front_face then (1 : ℝ) / 1 else 1) = 1 := by
    split <;> norm_num
  have hcond : ¬((if rec.front_face then (1 : ℝ) / 1 else 1) *
      Real.sqrt (1 - min ((-1 : ℝ) * r.dir.unit.dot rec.normal) 1 *
        min ((-1 : ℝ) * r.dir.unit.dot rec.normal) 1) > 1 ∨
      Dielectric.reflectance (min ((-1 : ℝ) * r.dir.unit.dot rec.normal) 1)
        (if rec.front_face then (1 : ℝ) / 1 else 1) > draw) := by
    rw [hri]
    push_neg
    constructor
    · rw [one_mul]
      exact hsin
    · exact hdraw
  simp only [Material.scatter]
  rw [if_neg hcond, hri]
  have hrefr : refract r.dir.unit rec.normal 1 = r.dir.unit :=
    refract_identity _ _ hu hn (le_of_lt hudot)
  rw [hrefr]

/-- Hit record with unit normal `(0,1,0)` at the origin, used to
instantiate theorems. -/
def wRec : HitRecord := ⟨⟨0, 0, 0⟩, ⟨0, 1, 0⟩, 1, true⟩

/-- Ray going straight down onto `wRec`, used to instantiate theorems. -/
def wRayDown : Ray := ⟨⟨0, 0, 0⟩, ⟨0, -1, 0⟩⟩

lemma wRayDown_unit : wRayDown.dir.unit = ⟨0, -1, 0⟩ := by
  have hlen : (⟨0, -1, 0⟩ : Vec3).length = 1 := by
    simp only [Vec3.length]
    rw [show (0 : ℝ) * 0 + (-1) * (-1) + 0 * 0 = 1 by norm_num, Real.sqrt_one]
  show (⟨0, -1, 0⟩ : Vec3).unit = ⟨0, -1, 0⟩
  simp only [Vec3.unit, hlen]
  norm_num

lemma wRayDown_cosTheta : Dielectric.cosTheta wRayDown wRec = 1 := by
  rw [Dielectric.cosTheta, wRayDown_unit]
  simp only [wRec, Vec3.dot_def]
  norm_num

theorem dielectric_unit_index_refraction_id_witness :
    wRec.normal.length_squared = 1 ∧ wRayDown.dir.dot wRec.normal < 0 ∧
    Dielectric.reflectance (Dielectric.cosTheta wRayDown wRec) 1 ≤ 0 ∧
    Material.scatter (Material.Dielectric 1) wRayDown wRec ⟨0, 0, 0⟩ 0 =
      some { attenuation := ⟨1, 1, 1⟩, scattered := ⟨wRec.point, wRayDown.dir.unit⟩ } := by
  have hn : wRec.normal.length_squared = 1 := by
    simp only [wRec, Vec3.length_squared, Vec3.dot_def]
    norm_num
  have hgraze : wRayDown.dir.dot wRec.normal < 0 := by
    simp only [wRayDown, wRec, Vec3.dot_def]
    norm_num
  have hdraw : Dielectric.reflectance (Dielectric.cosTheta wRayDown wRec) 1 ≤ 0 := by
    rw [wRayDown_cosTheta, Dielectric.reflectance]
    norm_num
  exact ⟨hn, hgraze, hdraw,
    dielectric_unit_index_refraction_id wRayDown wRec ⟨0, 0, 0⟩ 0 hn hgraze hdraw⟩

/-- Ray with direction `(3,-4,0)`, used for the dielectric counterexample. -/
def wRaySlant : Ray := ⟨⟨0, 0, 0⟩, ⟨3, -4, 0⟩⟩

lemma wRaySlant_unit : wRaySlant.dir.unit = ⟨3 / 5, -4 / 5, 0⟩ := by
  have hlen : (⟨3, -4, 0⟩ : Vec3).length = 5 := by
    simp only [Vec3.length]
    rw [show (3 : ℝ) * 3 + (-4) * (-4) + 0 * 0 = 5 ^ 2 by norm_num,
      Real.sqrt_sq (by norm_num)]
  show (⟨3, -4, 0⟩ : Vec3).unit = ⟨3 / 5, -4 / 5, 0⟩
  simp only [Vec3.unit, hlen]
  norm_num

/-- C5 (counterexample to the claim as stated): at `refraction_index = 1.0`,
a non-grazing incidence and the draw outcome `0` take the reflection branch
(the Schlick reflectance is positive), and the scattered direction differs
from the unit incident direction by far more than floating tolerance. -/
theorem dielectric_unit_index_counterexample :
    wRaySlant.dir.dot wRec.normal < 0 ∧
    (Material.scatter (Material.Dielectric 1) wRaySlant wRec ⟨0, 0, 0⟩ 0).map
        (fun res => res.scattered.dir) = some ⟨3 / 5, 4 / 5, 0⟩ ∧
    wRaySlant.dir.unit = ⟨3 / 5, -4 / 5, 0⟩ ∧
    (⟨3 / 5, 4 / 5, 0⟩ : Vec3) ≠ (⟨3 / 5, -4 / 5, 0⟩ : Vec3) := by
  refine ⟨?_, ?_, wRaySlant_unit, ?_⟩
  · simp only [wRaySlant, wRec, Vec3.dot_def]
    norm_num
  · have hcos : min ((-1 : ℝ) * wRaySlant.dir.unit.dot wRec.normal) 1 = 4 / 5 := by
      rw [wRaySlant_unit]
      simp only [wRec, Vec3.dot_def]
      norm_num
    have hcond : (if wRec.front_face then (1 : ℝ) / 1 else 1) *
        Real.sqrt (1 - min ((-1 : ℝ) * wRaySlant.dir.unit.dot wRec.normal) 1 *
          min ((-1 : ℝ) * wRaySlant.dir.unit.dot wRec.normal) 1) > 1 ∨
        Dielectric.reflectance (min ((-1 : ℝ) * wRaySlant.dir.unit.dot wRec.normal) 1)
          (if wRec.front_face then (1 : ℝ) / 1 else 1) > 0 := by
      right
      rw [hcos, Dielectric.reflectance]
      have hff : wRec.front_face = true := rfl
      rw [hff]
      norm_num
    simp only [Material.scatter]
    rw [if_pos hcond]
    have hrefl : reflect wRaySlant.dir.unit wRec.normal = ⟨3 / 5, 4 / 5, 0⟩ := by
      rw [reflect, wRaySlant_unit]
      simp only [wRec, Vec3.dot_def, Vec3.smul_def, Vec3.sub_def]
      norm_num
    rw [hrefl]
    rfl
  · simp only [ne_eq, Vec3.mk.injEq]
    norm_num

/-- C4: the three constructors named by the claim perform no validation at
all — a non-positive sphere radius, zero image dimensions and a zero sample
count are all accepted silently and stored as given, so nothing is rejected
eagerly at construction time. -/
theorem constructors_accept_invalid :
    (Sphere.new ⟨0, 0, 0⟩ (-1)).radius = -1 ∧
    (Image.new 0 0).width = 0 ∧ (Image.new 0 0).pixels = [] ∧
    ((Camera.new (Image.new 16 9)).set_samples_per_pixel 0).samples_per_pixel = 0 := by
  refine ⟨rfl, rfl, ?_, rfl⟩
  simp [Image.new]

lemma gamma_clamp_mem (x : ℝ) :
    0 ≤ (Interval.new 0 0.9999).clamp (linear_to_gamma x) ∧
      (Interval.new 0 0.9999).clamp (linear_to_gamma x) ≤ 0.9999 := by
  unfold Interval.clamp Interval.new
  split_ifs with h1 h2
  · norm_num
  · norm_num
  · constructor <;> [linarith; linarith]

lemma rustAsU8_of_clamped (y : ℝ) (h0 : 0 ≤ y) (h1 : y ≤ 0.9999) :
    rustAsU8 (y * 256) = ⌊y * 256⌋ ∧ 0 ≤ ⌊y * 256⌋ ∧ ⌊y * 256⌋ ≤ 255 := by
  have hy0 : 0 ≤ y * 256 := mul_nonneg h0 (by norm_num)
  have hy1 : y * 256 ≤ 255.9744 := by nlinarith
  have hfl0 : 0 ≤ ⌊y * 256⌋ := Int.floor_nonneg.mpr hy0
  have hfl1 : ⌊y * 256⌋ ≤ 255 := by
    have hle : ⌊y * 256⌋ ≤ ⌊(255.9744 : ℝ)⌋ := Int.floor_le_floor hy1
    have hval : ⌊(255.9744 : ℝ)⌋ = 255 := by
      rw [Int.floor_eq_iff]
      norm_num
    rw [hval] at hle
    exact hle
  refine ⟨?_, hfl0, hfl1⟩
  rw [rustAsU8, rustTruncF64, if_pos hy0, min_eq_right hfl1, max_eq_right hfl0]

lemma gamma_nonpos (x : ℝ) (h : x ≤ 0) : linear_to_gamma x = 0 := by
  rw [linear_to_gamma, if_neg (not_lt.mpr h)]

/-- C8: every channel produced by the color conversion is the truncation of
the gamma-mapped, clamped, 256-scaled channel value (the saturation of the
`as u8` cast never engages), lies in `0..=255` for arbitrary input, and a
non-positive linear channel maps to 0. -/
theorem color_conversion_bounds (v : Vec3) :
    ((colorFromVec3 v).r = ⌊(Interval.new 0 0.9999).clamp (linear_to_gamma v.x) * 256⌋ ∧
      0 ≤ (colorFromVec3 v).r ∧ (colorFromVec3 v).r ≤ 255 ∧
      (v.x ≤ 0 → (colorFromVec3 v).r = 0)) ∧
    ((colorFromVec3 v).g = ⌊(Interval.new 0 0.9999).clamp (linear_to_gamma v.y) * 256⌋ ∧
      0 ≤ (colorFromVec3 v).g ∧ (colorFromVec3 v).g ≤ 255 ∧
      (v.y ≤ 0 → (colorFromVec3 v).g = 0)) ∧
    ((colorFromVec3 v).b = ⌊(Interval.new 0 0.9999).clamp (linear_to_gamma v.z) * 256⌋ ∧
      0 ≤ (colorFromVec3 v).b ∧ (colorFromVec3 v).b ≤ 255 ∧
      (v.z ≤ 0 → (colorFromVec3 v).b = 0)) := by
  have hr := gamma_clamp_mem v.x
  have hg := gamma_clamp_mem v.y
  have hb := gamma_clamp_mem v.z
  have hr2 := rustAsU8_of_clamped _ hr.1 hr.2
  have hg2 := rustAsU8_of_clamped _ hg.1 hg.2
  have hb2 := rustAsU8_of_clamped _ hb.1 hb.2
  have hnonpos : ∀ x : ℝ, x ≤ 0 →
      rustAsU8 ((Interval.new 0 0.9999).clamp (linear_to_gamma x) * 256) = 0 := by
    intro x hx
    have hcl : (Interval.new 0 0.9999).clamp (linear_to_gamma x) = 0 := by
      rw [gamma_nonpos x hx, Interval.clamp, Interval.new]
      norm_num
    rw [hcl, zero_mul, rustAsU8, rustTruncF64, if_pos (le_refl (0 : ℝ)), Int.floor_zero]
    rfl
  refine ⟨⟨?_, ?_, ?_, ?_⟩, ⟨?_, ?_, ?_, ?_⟩, ⟨?_, ?_, ?_, ?_⟩⟩
  · exact hr2.1
  · rw [show (colorFromVec3 v).r =
        rustAsU8 ((Interval.new 0 0.9999).clamp (linear_to_gamma v.x) * 256) from rfl, hr2.1]
    exact hr2.2.1
  · rw [show (colorFromVec3 v).r =
        rustAsU8 ((Interval.new 0 0.9999).clamp (linear_to_gamma v.x) * 256) from rfl, hr2.1]
    exact hr2.2.2
  · exact fun hx => hnonpos v.x hx
  · exact hg2.1
  · rw [show (colorFromVec3 v).g =
        rustAsU8 ((Interval.new 0 0.9999).clamp (linear_to_gamma v.y) * 256) from rfl, hg2.1]
    exact hg2.2.1
  · rw [show (colorFromVec3 v).g =
        rustAsU8 ((Interval.new 0 0.9999).clamp (linear_to_gamma v.y) * 256) from rfl, hg2.1]
    exact hg2.2.2
  · exact fun hy => hnonpos v.y hy
  · exact hb2.1
  · rw [show (colorFromVec3 v).b =
        rustAsU8 ((Interval.new 0 0.9999).clamp (linear_to_gamma v.z) * 256) from rfl, hb2.1]
    exact hb2.2.1
  · rw [show (colorFromVec3 v).b =
        rustAsU8 ((Interval.new 0 0.9999).clamp (linear_to_gamma v.z) * 256) from rfl, hb2.1]
    exact hb2.2.2
  · exact fun hz => hnonpos v.z hz

theorem color_conversion_bounds_witness :
    ((-1 : ℝ) ≤ 0 ∧ (colorFromVec3 ⟨-1, 4, 9⟩).r = 0) ∧
    0 ≤ (colorFromVec3 ⟨-1, 4, 9⟩).g ∧ (colorFromVec3 ⟨-1, 4, 9⟩).g ≤ 255 ∧
    0 ≤ (colorFromVec3 ⟨-1, 4, 9⟩).b ∧ (colorFromVec3 ⟨-1, 4, 9⟩).b ≤ 255 := by
  have h := color_conversion_bounds ⟨-1, 4, 9⟩
  exact ⟨⟨by norm_num, h.1.2.2.2 (by norm_num)⟩, h.2.1.2.1, h.2.1.2.2.1,
    h.2.2.2.1, h.2.2.2.2.1⟩

/-- C10: under the preconditions of a nonzero ray direction and nonzero
sphere radius, both divisors used inside `Sphere::hit` — the quadratic
coefficient `a` dividing the roots and the radius dividing the outward
normal — are nonzero; and `Sphere::hit` has no guard for a zero-direction
ray: there `a = 0`, the discriminant guard does not fire, and the `0/0` root
computation flows through to a hit record. -/
theorem sphere_hit_divisors (s : Sphere) (r : Ray) (hdir : r.dir ≠ Vec3.zero)
    (hrad : s.radius ≠ 0) :
    (0 < Sphere.qa r ∧ Sphere.qa r ≠ 0 ∧ s.radius ≠ 0) ∧
    (Sphere.qa ⟨r.origin, ⟨0, 0, 0⟩⟩ = 0 ∧
      ¬(Sphere.discriminant ⟨⟨5, 0, 0⟩, 1⟩ ⟨⟨0, 0, 0⟩, ⟨0, 0, 0⟩⟩ < 0) ∧
      Sphere.hit ⟨⟨5, 0, 0⟩, 1⟩ ⟨⟨0, 0, 0⟩, ⟨0, 0, 0⟩⟩ (-1) 1 =
        HitResult.Hit ⟨⟨0, 0, 0⟩, ⟨5, 0, 0⟩, 0, false⟩) := by
  have hqa : 0 < Sphere.qa r := Vec3.length_squared_pos _ hdir
  refine ⟨⟨hqa, ne_of_gt hqa, hrad⟩, ?_, ?_, sphere_hit_zero_dir_eval⟩
  · simp only [Sphere.qa, Vec3.length_squared, Vec3.dot_def]
    norm_num
  · have hdisc : Sphere.discriminant ⟨⟨5, 0, 0⟩, 1⟩ ⟨⟨0, 0, 0⟩, ⟨0, 0, 0⟩⟩ = 0 := by
      simp only [Sphere.discriminant, Sphere.qh, Sphere.qa, Sphere.qc, Sphere.oc,
        Vec3.length_squared, Vec3.dot_def, Vec3.sub_def]
      norm_num
    rw [hdisc]
    norm_num

theorem sphere_hit_divisors_witness :
    (wRay.dir ≠ Vec3.zero ∧ wSphere.radius ≠ 0) ∧
    ((0 < Sphere.qa wRay ∧ Sphere.qa wRay ≠ 0 ∧ wSphere.radius ≠ 0) ∧
      (Sphere.qa ⟨wRay.origin, ⟨0, 0, 0⟩⟩ = 0 ∧
        ¬(Sphere.discriminant ⟨⟨5, 0, 0⟩, 1⟩ ⟨⟨0, 0, 0⟩, ⟨0, 0, 0⟩⟩ < 0) ∧
        Sphere.hit ⟨⟨5, 0, 0⟩, 1⟩ ⟨⟨0, 0, 0⟩, ⟨0, 0, 0⟩⟩ (-1) 1 =
          HitResult.Hit ⟨⟨0, 0, 0⟩, ⟨5, 0, 0⟩, 0, false⟩)) := by
  have hdir : wRay.dir ≠ Vec3.zero := by
    simp only [wRay, Vec3.zero, ne_eq, Vec3.mk.injEq]
    norm_num
  have hrad : wSphere.radius ≠ 0 := by norm_num [wSphere]
  exact ⟨⟨hdir, hrad⟩, sphere_hit_divisors wSphere wRay hdir hrad⟩

/-- Camera configured as the claim's nondegenerate example:
`lookfrom = (0,1,1)`, `lookat = (0,0,0)`, default `vup = (0,1,0)`. -/
noncomputable def wCam : Camera :=
  (Camera.new (Image.new 16 9)).set_camera_pos ⟨0, 1, 1⟩ ⟨0, 0, 0⟩

lemma wCam_fields :
    wCam.lookfrom = ⟨0, 1, 1⟩ ∧ wCam.lookat = ⟨0, 0, 0⟩ ∧ wCam.vup = ⟨0, 1, 0⟩ ∧
      wCam.w = (⟨0, 1, 1⟩ - (⟨0, 0, 0⟩ : Vec3)).unit ∧
      wCam.u = Vec3.cross ⟨0, 1, 0⟩ ((⟨0, 1, 1⟩ - (⟨0, 0, 0⟩ : Vec3)).unit) := by
  refine ⟨?_, ?_, ?_, ?_, ?_⟩ <;>
    simp [wCam, Camera.set_camera_pos, Camera.initialize, Camera.new]

lemma sqrt_two_facts : Real.sqrt 2 * Real.sqrt 2 = 2 ∧ 0 < Real.sqrt 2 :=
  ⟨Real.mul_self_sqrt (by norm_num), Real.sqrt_pos.mpr (by norm_num)⟩

lemma wCam_u_val : wCam.u = ⟨1 / Real.sqrt 2, 0, 0⟩ := by
  rw [wCam_fields.2.2.2.2]
  have hsub : ((⟨0, 1, 1⟩ : Vec3) - ⟨0, 0, 0⟩) = (⟨0, 1, 1⟩ : Vec3) := by
    simp only [Vec3.sub_def]
    norm_num
  rw [hsub]
  have hlen : (⟨0, 1, 1⟩ : Vec3).length = Real.sqrt 2 := by
    simp only [Vec3.length]
    norm_num
  simp only [Vec3.unit, hlen, Vec3.cross_def, Vec3.mk.injEq]
  norm_num

/-- C3: the claim fails on the code — `Camera::initialize` stores the bare
cross product `vup × w` in `u` without normalizing it (src/src/camera.rs
line 170).  At the nondegenerate configuration `lookfrom = (0,1,1)`,
`lookat = (0,0,0)`, `vup = (0,1,0)` the stored `u` has squared length `1/2`,
so it is neither unit length nor equal to `normalize(cross(up, w))`. -/
theorem camera_basis_u_unnormalized :
    wCam.lookfrom ≠ wCam.lookat ∧
    wCam.vup.cross wCam.w ≠ Vec3.zero ∧
    wCam.u.length_squared = 1 / 2 ∧
    wCam.u ≠ (wCam.vup.cross wCam.w).unit := by
  obtain ⟨hs2, hspos⟩ := sqrt_two_facts
  have hcross : wCam.vup.cross wCam.w = wCam.u := by
    rw [wCam_fields.2.2.1, wCam_fields.2.2.2.1, wCam_fields.2.2.2.2]
  have huval := wCam_u_val
  have hls : wCam.u.length_squared = 1 / 2 := by
    rw [huval]
    simp only [Vec3.length_squared, Vec3.dot_def]
    rw [div_mul_div_comm, hs2]
    norm_num
  refine ⟨?_, ?_, hls, ?_⟩
  · rw [wCam_fields.1, wCam_fields.2.1]
    simp only [ne_eq, Vec3.mk.injEq]
    norm_num
  · rw [hcross, huval]
    simp only [Vec3.zero, ne_eq, Vec3.mk.injEq]
    intro h
    have hx := h.1
    rw [div_eq_zero_iff] at hx
    rcases hx with hx | hx
    · norm_num at hx
    · exact absurd hx (ne_of_gt hspos)
  · intro heq
    have hne : wCam.vup.cross wCam.w ≠ Vec3.zero := by
      rw [hcross, huval]
      simp only [Vec3.zero, ne_eq, Vec3.mk.injEq]
      intro h
      have hx := h.1
      rw [div_eq_zero_iff] at hx
      rcases hx with hx | hx
      · norm_num at hx
      · exact absurd hx (ne_of_gt hspos)
    have h1 : ((wCam.vup.cross wCam.w).unit).length_squared = 1 :=
      Vec3.unit_length_squared _ hne
    rw [← heq, hls] at h1
    norm_num at h1

end Zharko
